import Mathlib

/-!
Verification development for the LanguageGames server core: the rating
engine (`src/server/services/elo.ts`), the matchmaking scheduler and room
manager (`src/server/services/matchmaking.ts`), the session persistence
layer (`src/server/services/gameSession.ts`) and the realtime gateway
handlers (`src/server/socket/handlers.ts`,
`src/server/middleware/security.ts`).

Modelling conventions:
* JS `number` values that the code treats as exact (elos, scores, counts,
  timestamps) are embedded as `ℚ`, `ℤ` or `ℕ`; the transcendental
  `10^(d/400)` of the Elo expected-score formula forces that part of the
  model into `ℝ`.
* `Math.round` (round half toward +∞) is `⌊x + 1/2⌋`.
* `null`/`undefined` becomes `Option`.
-/

namespace LangGames

/-! ## Configuration constants (`src/server/config.ts`) -/

def DEFAULT_ELO : ℚ := 1000
def ELO_MIN_FLOOR : ℚ := 100
def ELO_MIN_CHANGE : ℤ := 1
def ELO_UPSET_THRESHOLD : ℚ := 200
def ELO_UPSET_MULTIPLIER : ℚ := 6/5
def ELO_SEED_CAP_MAX : ℚ := 1400
def ELO_SEED_COEFFICIENT : ℚ := 2/5
def ELO_K_PROVISIONAL : ℚ := 40
def ELO_K_DEVELOPING : ℚ := 32
def ELO_K_ESTABLISHED : ℚ := 20
def ELO_GAMES_PROVISIONAL : ℕ := 15
def ELO_GAMES_ESTABLISHED : ℕ := 30
def MATCHMAKING_BOT_FALLBACK_MS : ℤ := 60000
def BOT_ELO_EASY : ℚ := 1200
def BOT_ELO_MEDIUM : ℚ := 1500
def BOT_ACCURACY_EASY : ℚ := 1/2
def BOT_ACCURACY_MEDIUM : ℚ := 13/20
def BOT_ACCURACY_HARD : ℚ := 4/5

/-- JavaScript `Math.round` on exact rational values: round half toward +∞. -/
def roundJS (x : ℚ) : ℤ := ⌊x + 1/2⌋

/-- JavaScript `Math.round` on real values: round half toward +∞. -/
noncomputable def roundJSR (x : ℝ) : ℤ := ⌊x + 1/2⌋

/-! ## Rating engine (`src/server/services/elo.ts`) -/

/-- The `result: 0 | 0.5 | 1` parameter of `calculateNewElo`:
loss, draw or win for the player whose rating is being updated. -/
inductive GameResult
  | loss
  | draw
  | win
  deriving DecidableEq, Repr

/-- Numeric value of the `result` parameter. -/
noncomputable def GameResult.val : GameResult → ℝ
  | .loss => 0
  | .draw => 1/2
  | .win => 1

/-- `expected = 1 / (1 + Math.pow(10, (opponentElo - playerElo) / 400))`. -/
noncomputable def expectedScore (playerElo opponentElo : ℚ) : ℝ :=
  1 / (1 + (10 : ℝ) ^ (((opponentElo : ℝ) - (playerElo : ℝ)) / 400))

/-- `change = kFactor * (result - expected)` — the raw change before the
upset multiplier, rounding and the minimum-change clamp. -/
noncomputable def rawChange (playerElo opponentElo : ℚ) (result : GameResult)
    (kFactor : ℚ) : ℝ :=
  (kFactor : ℝ) * (result.val - expectedScore playerElo opponentElo)

/-- The raw change after the upset-multiplier branch:
`if (result === 1 && eloDiff >= ELO_UPSET_THRESHOLD) change *= ELO_UPSET_MULTIPLIER;`
`else if (result === 0 && eloDiff <= -ELO_UPSET_THRESHOLD) change *= ELO_UPSET_MULTIPLIER;`
where `eloDiff = opponentElo - playerElo`. -/
noncomputable def upsetChange (playerElo opponentElo : ℚ) (result : GameResult)
    (kFactor : ℚ) : ℝ :=
  let eloDiff : ℚ := opponentElo - playerElo
  match result with
  | .win =>
      if ELO_UPSET_THRESHOLD ≤ eloDiff then
        (ELO_UPSET_MULTIPLIER : ℝ) * rawChange playerElo opponentElo result kFactor
      else rawChange playerElo opponentElo result kFactor
  | .loss =>
      if eloDiff ≤ -ELO_UPSET_THRESHOLD then
        (ELO_UPSET_MULTIPLIER : ℝ) * rawChange playerElo opponentElo result kFactor
      else rawChange playerElo opponentElo result kFactor
  | .draw => rawChange playerElo opponentElo result kFactor

/-- `const rounded = Math.round(change);` -/
noncomputable def roundedChange (playerElo opponentElo : ℚ) (result : GameResult)
    (kFactor : ℚ) : ℤ :=
  roundJSR (upsetChange playerElo opponentElo result kFactor)

/-- `Math.max(ELO_MIN_CHANGE, Math.abs(rounded)) * (rounded >= 0 ? 1 : -1)`.
Expressed on the already-rounded integer. -/
def clampedOfRounded (rounded : ℤ) : ℤ :=
  max ELO_MIN_CHANGE |rounded| * (if 0 ≤ rounded then 1 else -1)

/-- `const clampedChange = ...` applied to the rounded change. -/
noncomputable def clampedChange (playerElo opponentElo : ℚ) (result : GameResult)
    (kFactor : ℚ) : ℤ :=
  clampedOfRounded (roundedChange playerElo opponentElo result kFactor)

/-- `calculateNewElo`: `return Math.max(ELO_MIN_FLOOR, playerElo + clampedChange)`. -/
noncomputable def calculateNewElo (playerElo opponentElo : ℚ) (result : GameResult)
    (kFactor : ℚ) : ℚ :=
  max ELO_MIN_FLOOR (playerElo + (clampedChange playerElo opponentElo result kFactor : ℚ))

/-- `getKFactor(gamesPlayed)` — tiered K factor. -/
def getKFactor (gamesPlayed : ℕ) : ℚ :=
  if gamesPlayed < ELO_GAMES_PROVISIONAL then ELO_K_PROVISIONAL
  else if gamesPlayed < ELO_GAMES_ESTABLISHED then ELO_K_DEVELOPING
  else ELO_K_ESTABLISHED

/-- One row of the `elo_ratings` query inside `getSeededStartingElo`:
`select('elo, games_played')`; `games_played` can be null. -/
structure SeedRow where
  elo : ℚ
  gamesPlayed : Option ℕ
  deriving DecidableEq, Repr

/-- `Math.max(...)` over a list known to be nonempty (the empty case is
guarded in the caller). -/
def listMax : List ℚ → ℚ
  | [] => 0
  | x :: xs => xs.foldl max x

/-- The `established` local of `getSeededStartingElo`:
`otherRatings.filter((r) => (r.games_played ?? 0) >= ELO_GAMES_ESTABLISHED)`. -/
def establishedRows (otherRatings : List SeedRow) : List SeedRow :=
  otherRatings.filter (fun r => ELO_GAMES_ESTABLISHED ≤ r.gamesPlayed.getD 0)

/-- The `highestFromEstablished` local of `getSeededStartingElo`. -/
def highestFromEstablished (otherRatings : List SeedRow) : ℚ :=
  if (establishedRows otherRatings).isEmpty then 0
  else listMax ((establishedRows otherRatings).map (·.elo))

/-- Pure core of `getSeededStartingElo`, abstracting the `supabase` query:
`otherRatings` is the list of `{elo, games_played}` rows for the same user
in game types other than the one being seeded. -/
def getSeededStartingElo (otherRatings : List SeedRow) : ℚ :=
  if otherRatings.isEmpty then DEFAULT_ELO
  else if highestFromEstablished otherRatings ≤ DEFAULT_ELO then DEFAULT_ELO
  else
    let seedElo := DEFAULT_ELO +
      (highestFromEstablished otherRatings - DEFAULT_ELO) * ELO_SEED_COEFFICIENT
    ((roundJS (min ELO_SEED_CAP_MAX (max DEFAULT_ELO seedElo)) : ℤ) : ℚ)

/-- The spec's words for the non-default seeding value (C9):
"default + (highest − default) · seedCoefficient clamped into
[default, seedCap]" — stated without the rounding the code performs. -/
def seedValueSpec (highest : ℚ) : ℚ :=
  min ELO_SEED_CAP_MAX (max DEFAULT_ELO
    (DEFAULT_ELO + (highest - DEFAULT_ELO) * ELO_SEED_COEFFICIENT))

/-! ## Rating engine lemmas -/

theorem expectedScore_pos (p o : ℚ) : 0 < expectedScore p o := by
  unfold expectedScore
  positivity

theorem expectedScore_lt_one (p o : ℚ) : expectedScore p o < 1 := by
  unfold expectedScore
  rw [div_lt_one (by positivity)]
  have h : (0:ℝ) < (10 : ℝ) ^ (((o : ℝ) - (p : ℝ)) / 400) :=
    Real.rpow_pos_of_pos (by norm_num) _
  linarith

theorem clampedOfRounded_eq (n : ℤ) :
    clampedOfRounded n = if n = 0 then 1 else n := by
  unfold clampedOfRounded ELO_MIN_CHANGE
  rcases lt_trichotomy n 0 with h | h | h
  · simp only [if_neg (by omega : ¬ (0:ℤ) ≤ n), if_neg (by omega : ¬ n = 0)]
    rw [abs_of_neg h]
    omega
  · subst h; simp
  · simp only [if_pos (by omega : (0:ℤ) ≤ n), if_neg (by omega : ¬ n = 0)]
    rw [abs_of_pos h]
    omega

theorem clampedOfRounded_mono {n m : ℤ} (h : n ≤ m) :
    clampedOfRounded n ≤ clampedOfRounded m := by
  rw [clampedOfRounded_eq, clampedOfRounded_eq]
  split_ifs <;> omega

theorem roundJSR_mono {x y : ℝ} (h : x ≤ y) : roundJSR x ≤ roundJSR y := by
  unfold roundJSR
  exact Int.floor_le_floor (by linarith)

theorem upsetChange_mono_result (p o : ℚ) (k : ℚ) (hk : 0 < k) :
    upsetChange p o .loss k ≤ upsetChange p o .draw k ∧
      upsetChange p o .draw k ≤ upsetChange p o .win k := by
  have hE0 := expectedScore_pos p o
  have hE1 := expectedScore_lt_one p o
  have hkR : (0:ℝ) < (k : ℝ) := by exact_mod_cast hk
  have hm : (1:ℝ) ≤ (ELO_UPSET_MULTIPLIER : ℚ) := by
    unfold ELO_UPSET_MULTIPLIER; norm_num
  constructor
  · unfold upsetChange
    simp only
    have hloss : rawChange p o GameResult.loss k ≤ 0 := by
      unfold rawChange GameResult.val
      simp only
      nlinarith
    have hld : rawChange p o GameResult.loss k ≤ rawChange p o GameResult.draw k := by
      unfold rawChange GameResult.val
      nlinarith
    split_ifs with h
    · calc (ELO_UPSET_MULTIPLIER : ℝ) * rawChange p o GameResult.loss k
          ≤ 1 * rawChange p o GameResult.loss k := by
            apply mul_le_mul_of_nonpos_right _ hloss
            exact_mod_cast hm
        _ = rawChange p o GameResult.loss k := by ring
        _ ≤ rawChange p o GameResult.draw k := hld
    · exact hld
  · unfold upsetChange
    simp only
    have hwin : 0 ≤ rawChange p o GameResult.win k := by
      unfold rawChange GameResult.val
      nlinarith
    have hdw : rawChange p o GameResult.draw k ≤ rawChange p o GameResult.win k := by
      unfold rawChange GameResult.val
      nlinarith
    split_ifs with h
    · calc rawChange p o GameResult.draw k
          ≤ rawChange p o GameResult.win k := hdw
        _ = 1 * rawChange p o GameResult.win k := by ring
        _ ≤ (ELO_UPSET_MULTIPLIER : ℝ) * rawChange p o GameResult.win k := by
            apply mul_le_mul_of_nonneg_right _ hwin
            exact_mod_cast hm
    · exact hdw

theorem expectedScore_1400_1000 : expectedScore 1400 1000 = 10/11 := by
  unfold expectedScore
  have h1 : (((1000:ℚ):ℝ) - ((1400:ℚ):ℝ)) / 400 = ((-1 : ℤ) : ℝ) := by
    push_cast; norm_num
  rw [h1, Real.rpow_intCast]
  norm_num

/-- C4: for every fixed player rating, opponent rating and positive K factor,
`calculateNewElo` is monotone in the result: the rating after a win is at
least the rating after a draw, which is at least the rating after a loss,
whichever upset-multiplier branches fire. -/
theorem C4_new_elo_monotone_in_result (p o : ℚ) (k : ℚ) (hk : 0 < k) :
    calculateNewElo p o .loss k ≤ calculateNewElo p o .draw k ∧
      calculateNewElo p o .draw k ≤ calculateNewElo p o .win k := by
  obtain ⟨h1, h2⟩ := upsetChange_mono_result p o k hk
  have c1 : clampedChange p o .loss k ≤ clampedChange p o .draw k :=
    clampedOfRounded_mono (roundJSR_mono h1)
  have c2 : clampedChange p o .draw k ≤ clampedChange p o .win k :=
    clampedOfRounded_mono (roundJSR_mono h2)
  unfold calculateNewElo
  constructor
  · apply max_le_max le_rfl
    have h : ((clampedChange p o GameResult.loss k : ℚ)) ≤ (clampedChange p o GameResult.draw k : ℚ) := by
      exact_mod_cast c1
    linarith
  · apply max_le_max le_rfl
    have h : ((clampedChange p o GameResult.draw k : ℚ)) ≤ (clampedChange p o GameResult.win k : ℚ) := by
      exact_mod_cast c2
    linarith

/-- C4 witness: the monotonicity theorem applied at equal ratings 1000 and
K = 20. -/
theorem C4_new_elo_monotone_in_result_witness :
    0 < (20:ℚ) ∧
      (calculateNewElo 1000 1000 .loss 20 ≤ calculateNewElo 1000 1000 .draw 20 ∧
        calculateNewElo 1000 1000 .draw 20 ≤ calculateNewElo 1000 1000 .win 20) :=
  ⟨by norm_num, C4_new_elo_monotone_in_result 1000 1000 20 (by norm_num)⟩

/-- C3 counterexample: at playerElo 1400, opponentElo 1000, a draw with
K = 1 has raw change 1·(1/2 − 10/11) = −9/22 < 0, yet the applied change is
+1 > 0: the minimum-change clamp turns the rounded value 0 into +1 and does
NOT preserve the sign of the raw (pre-flooring) change. -/
theorem C3_sign_flip_counterexample :
    0 < (1:ℚ) ∧ rawChange 1400 1000 .draw 1 < 0 ∧
      ¬ clampedChange 1400 1000 .draw 1 < 0 := by
  have hraw : rawChange 1400 1000 .draw 1 = -(9/22) := by
    unfold rawChange GameResult.val
    rw [expectedScore_1400_1000]
    norm_num
  have happ : clampedChange 1400 1000 .draw 1 = 1 := by
    unfold clampedChange roundedChange upsetChange
    simp only
    rw [hraw]
    have h0 : roundJSR (-(9/22)) = 0 := by
      unfold roundJSR
      rw [Int.floor_eq_zero_iff]
      constructor <;> norm_num
    rw [h0, clampedOfRounded_eq]
    norm_num
  refine ⟨by norm_num, by rw [hraw]; norm_num, by rw [happ]; norm_num⟩

/-- C3 amended: for every call with positive K the applied rating change is
never zero, its magnitude is at least `ELO_MIN_CHANGE`, it preserves the
sign of the ROUNDED change whenever that is nonzero (a rounded change of
zero — which can come from a small negative raw change — becomes +1), and
the returned rating is never below `ELO_MIN_FLOOR`. -/
theorem C3_min_change_and_floor (p o : ℚ) (r : GameResult) (k : ℚ) (_hk : 0 < k) :
    clampedChange p o r k ≠ 0 ∧
      ELO_MIN_CHANGE ≤ |clampedChange p o r k| ∧
      (0 < roundedChange p o r k → 0 < clampedChange p o r k) ∧
      (roundedChange p o r k < 0 → clampedChange p o r k < 0) ∧
      (roundedChange p o r k = 0 → clampedChange p o r k = 1) ∧
      ELO_MIN_FLOOR ≤ calculateNewElo p o r k := by
  have hc : clampedChange p o r k =
      if roundedChange p o r k = 0 then 1 else roundedChange p o r k := by
    unfold clampedChange
    exact clampedOfRounded_eq _
  have hmc : ELO_MIN_CHANGE = (1:ℤ) := rfl
  refine ⟨?_, ?_, ?_, ?_, ?_, ?_⟩
  · rw [hc]; split_ifs with h <;> omega
  · rw [hc, hmc]
    split_ifs with h
    · norm_num
    · exact Int.one_le_abs h
  · intro h; rw [hc, if_neg (by omega)]; exact h
  · intro h; rw [hc, if_neg (by omega)]; exact h
  · intro h; rw [hc, if_pos h]
  · unfold calculateNewElo
    exact le_max_left _ _

/-- C3 witness: the amended theorem applied at ratings 1000 vs 1000, a win,
K = 20. -/
theorem C3_min_change_and_floor_witness :
    0 < (20:ℚ) ∧
      (clampedChange 1000 1000 .win 20 ≠ 0 ∧
        ELO_MIN_CHANGE ≤ |clampedChange 1000 1000 .win 20| ∧
        (0 < roundedChange 1000 1000 .win 20 → 0 < clampedChange 1000 1000 .win 20) ∧
        (roundedChange 1000 1000 .win 20 < 0 → clampedChange 1000 1000 .win 20 < 0) ∧
        (roundedChange 1000 1000 .win 20 = 0 → clampedChange 1000 1000 .win 20 = 1) ∧
        ELO_MIN_FLOOR ≤ calculateNewElo 1000 1000 .win 20) :=
  ⟨by norm_num, C3_min_change_and_floor 1000 1000 .win 20 (by norm_num)⟩

/-- C9 counterexample: one other-category row with elo 1004 and 30 games is
established and above the default, but the code returns the ROUNDED value
1002 while the claim's formula `default + (highest − default)·seedCoefficient`
(clamped) gives 1001.6. -/
theorem C9_seed_rounding_counterexample :
    getSeededStartingElo [⟨1004, some 30⟩] = 1002 ∧
      seedValueSpec 1004 = 5008/5 ∧ ((1002:ℚ) ≠ 5008/5) := by
  refine ⟨?_, ?_, by norm_num⟩
  · norm_num [getSeededStartingElo, highestFromEstablished, establishedRows,
      listMax, roundJS, DEFAULT_ELO, ELO_GAMES_ESTABLISHED, ELO_SEED_COEFFICIENT,
      ELO_SEED_CAP_MAX, List.filter]
  · norm_num [seedValueSpec, DEFAULT_ELO, ELO_SEED_COEFFICIENT, ELO_SEED_CAP_MAX]

/-- C9 amended: seeding returns the default when no other-category rating is
established or the highest established rating is at or below the default;
otherwise it returns `default + (highest − default)·seedCoefficient` clamped
into `[default, seedCap]` and then ROUNDED to the nearest integer
(`Math.round`, which the claim omitted); the result always lies in
`[default, seedCap]`. -/
theorem C9_seeded_elo_amended (rows : List SeedRow) :
    (establishedRows rows = [] ∨ highestFromEstablished rows ≤ DEFAULT_ELO →
      getSeededStartingElo rows = DEFAULT_ELO) ∧
    (DEFAULT_ELO < highestFromEstablished rows →
      getSeededStartingElo rows =
        ((roundJS (min ELO_SEED_CAP_MAX (max DEFAULT_ELO
          (DEFAULT_ELO + (highestFromEstablished rows - DEFAULT_ELO) *
            ELO_SEED_COEFFICIENT))) : ℤ) : ℚ)) ∧
    DEFAULT_ELO ≤ getSeededStartingElo rows ∧
      getSeededStartingElo rows ≤ ELO_SEED_CAP_MAX := by
  refine ⟨?_, ?_, ?_⟩
  · intro h
    unfold getSeededStartingElo
    rcases h with h | h
    · by_cases hr : rows.isEmpty
      · rw [if_pos hr]
      · rw [if_neg hr, if_pos]
        unfold highestFromEstablished
        rw [h]
        simp only [List.isEmpty_nil, if_pos]
        unfold DEFAULT_ELO
        norm_num
    · by_cases hr : rows.isEmpty
      · rw [if_pos hr]
      · rw [if_neg hr, if_pos h]
  · intro h
    unfold getSeededStartingElo
    have hr : ¬ rows.isEmpty := by
      intro hr
      have hrr : establishedRows rows = [] := by
        unfold establishedRows
        rw [List.isEmpty_iff] at hr
        rw [hr]
        rfl
      unfold highestFromEstablished at h
      rw [hrr] at h
      simp only [List.isEmpty_nil, if_pos] at h
      unfold DEFAULT_ELO at h
      norm_num at h
    rw [if_neg hr, if_neg (by linarith)]
  · by_cases hr : rows.isEmpty
    · unfold getSeededStartingElo
      rw [if_pos hr]
      unfold DEFAULT_ELO ELO_SEED_CAP_MAX
      norm_num
    · by_cases hh : highestFromEstablished rows ≤ DEFAULT_ELO
      · unfold getSeededStartingElo
        rw [if_neg hr, if_pos hh]
        unfold DEFAULT_ELO ELO_SEED_CAP_MAX
        norm_num
      · unfold getSeededStartingElo
        rw [if_neg hr, if_neg hh]
        simp only
        set x : ℚ := min ELO_SEED_CAP_MAX (max DEFAULT_ELO
          (DEFAULT_ELO + (highestFromEstablished rows - DEFAULT_ELO) * ELO_SEED_COEFFICIENT)) with hx
        have hx1 : DEFAULT_ELO ≤ x := by
          rw [hx]
          refine le_min ?_ (le_max_left _ _)
          unfold DEFAULT_ELO ELO_SEED_CAP_MAX
          norm_num
        have hx2 : x ≤ ELO_SEED_CAP_MAX := min_le_left _ _
        have hfl : (1000:ℤ) ≤ roundJS x := by
          unfold roundJS
          rw [Int.le_floor]
          push_cast
          unfold DEFAULT_ELO at hx1
          linarith
        have hfu : roundJS x ≤ 1400 := by
          unfold roundJS
          have h14 : ⌊x + 1/2⌋ ≤ ⌊(1400:ℚ) + 1/2⌋ := by
            apply Int.floor_le_floor
            unfold ELO_SEED_CAP_MAX at hx2
            linarith
          have h2 : ⌊(1400:ℚ) + 1/2⌋ = 1400 := by norm_num
          omega
        constructor
        · unfold DEFAULT_ELO
          exact_mod_cast hfl
        · unfold ELO_SEED_CAP_MAX
          exact_mod_cast hfu

/-- C9 witness: the amended theorem applied to a single established row with
elo 1200 and 30 games, with the above-default hypothesis discharged. -/
theorem C9_seeded_elo_amended_witness :
    DEFAULT_ELO < highestFromEstablished [⟨1200, some 30⟩] ∧
      getSeededStartingElo [⟨1200, some 30⟩] =
        ((roundJS (min ELO_SEED_CAP_MAX (max DEFAULT_ELO
          (DEFAULT_ELO + (highestFromEstablished [⟨1200, some 30⟩] - DEFAULT_ELO) *
            ELO_SEED_COEFFICIENT))) : ℤ) : ℚ) ∧
      DEFAULT_ELO ≤ getSeededStartingElo [⟨1200, some 30⟩] ∧
        getSeededStartingElo [⟨1200, some 30⟩] ≤ ELO_SEED_CAP_MAX := by
  have hgt : DEFAULT_ELO < highestFromEstablished [⟨1200, some 30⟩] := by
    norm_num [highestFromEstablished, establishedRows, listMax, DEFAULT_ELO,
      ELO_GAMES_ESTABLISHED, List.filter]
  exact ⟨hgt, (C9_seeded_elo_amended [⟨1200, some 30⟩]).2.1 hgt,
    (C9_seeded_elo_amended [⟨1200, some 30⟩]).2.2⟩

/-! ## Matchmaking scheduler (`src/server/services/matchmaking.ts`)

The splice-based in-place scan of `runMatchmakingTick` is embedded as a
recursion over a `visited`/`rest` decomposition of the category queue:
`visited` are the already-scanned entries left queued (indices `0..i-1`),
`rest` the entries still to scan (indices `i..`).  Opponent search
(`queue.findIndex` with `j !== i`) therefore runs over `visited ++ tail`.
Room construction and the match callbacks are modelled separately (see the
room manager section); the tick returns the matched entries.
-/

/-- `QueueEntry` from `matchmaking.ts`. -/
structure QueueEntry where
  socketId : String
  userId : String
  username : String
  elo : ℚ
  gameType : String
  joinedAt : ℤ
  botFallbackMs : Option ℤ
  deriving DecidableEq, Repr

/-- One step of `MATCHMAKING_RANGE_SCHEDULE`; `range := none` models the
`Infinity` entry. -/
structure ScheduleStep where
  afterMs : ℤ
  range : Option ℚ
  deriving DecidableEq, Repr

/-- `MATCHMAKING_RANGE_SCHEDULE` from `config.ts`. -/
def MATCHMAKING_RANGE_SCHEDULE : List ScheduleStep :=
  [⟨0, some 100⟩, ⟨10000, some 200⟩, ⟨20000, some 350⟩,
   ⟨30000, some 500⟩, ⟨45000, none⟩]

/-- `getEloRangeForWaitTime`: scan the schedule from the last breakpoint
down, returning the range of the first breakpoint already reached;
fall back to the first entry's range.  (On an empty schedule the source
would throw; the model returns `none`, an unreachable case for the
configured schedule.) -/
def getEloRangeForWaitTime (schedule : List ScheduleStep) (waitMs : ℤ) : Option ℚ :=
  match schedule.reverse.find? (fun s => decide (s.afterMs ≤ waitMs)) with
  | some s => s.range
  | none =>
    match schedule with
    | [] => none
    | s :: _ => s.range

/-- The range test of the opponent search:
`range === Infinity || Math.abs(q.elo - entry.elo) <= range`. -/
def rangeAllows (range : Option ℚ) (d : ℚ) : Bool :=
  match range with
  | none => true
  | some r => decide (|d| ≤ r)

/-- Ordering on ranges, `none` being `Infinity` (largest). -/
def rangeLe : Option ℚ → Option ℚ → Prop
  | _, none => True
  | none, some _ => False
  | some x, some y => x ≤ y

/-- The opponent predicate of `queue.findIndex`:
different user id and rating difference within the allowed range. -/
def isEligible (entry q : QueueEntry) (range : Option ℚ) : Bool :=
  decide (q.userId ≠ entry.userId) && rangeAllows range (q.elo - entry.elo)

/-- The bot-fallback test of the tick:
`waitMs >= (entry.botFallbackMs ?? MATCHMAKING_BOT_FALLBACK_MS)`. -/
def overdueB (now : ℤ) (e : QueueEntry) : Bool :=
  decide (e.botFallbackMs.getD MATCHMAKING_BOT_FALLBACK_MS ≤ now - e.joinedAt)

/-- The per-category scan of `runMatchmakingTick`.  Returns
(entries handed to bot rooms, the ranked pair `(player1, player2)` if one
was found — at which point the whole tick stops —, the remaining queue). -/
def scanQueue (schedule : List ScheduleStep) (now : ℤ) :
    List QueueEntry → List QueueEntry → List QueueEntry →
    List QueueEntry × Option (QueueEntry × QueueEntry) × List QueueEntry
  | visited, [], bots => (bots, none, visited)
  | visited, entry :: tail, bots =>
    if overdueB now entry then
      scanQueue schedule now visited tail (bots ++ [entry])
    else
      let range := getEloRangeForWaitTime schedule (now - entry.joinedAt)
      match (visited ++ tail).find? (fun q => isEligible entry q range) with
      | some opponent =>
        (bots, some (opponent, entry),
          (visited ++ tail).eraseP (fun q => isEligible entry q range))
      | none => scanQueue schedule now (visited ++ [entry]) tail bots

/-- `runMatchmakingTick` over all category queues (map iteration order):
bot fallbacks per category, the single ranked match of the tick if any
(the tick `return`s as soon as one is made, leaving later categories
unscanned), and the remaining queues. -/
def runMatchmakingTick (schedule : List ScheduleStep) (now : ℤ) :
    List (String × List QueueEntry) →
    List (String × List QueueEntry) × Option (String × QueueEntry × QueueEntry)
      × List (String × List QueueEntry)
  | [] => ([], none, [])
  | (gameType, queue) :: restQs =>
    match scanQueue schedule now [] queue [] with
    | (bots, some pair, remaining) =>
      ([(gameType, bots)], some (gameType, pair), (gameType, remaining) :: restQs)
    | (bots, none, remaining) =>
      match runMatchmakingTick schedule now restQs with
      | (botsRest, hmRest, remRest) =>
        ((gameType, bots) :: botsRest, hmRest, (gameType, remaining) :: remRest)

/-! ## Matchmaking lemmas (C1, C2) -/

theorem rangeAllows_mono {r s : Option ℚ} {d : ℚ} (h : rangeAllows r d = true)
    (hle : rangeLe r s) : rangeAllows s d = true := by
  cases s with
  | none => rfl
  | some y =>
    cases r with
    | none => exact absurd hle (by simp [rangeLe])
    | some x =>
      unfold rangeAllows at h ⊢
      rw [decide_eq_true_iff] at h ⊢
      unfold rangeLe at hle
      linarith

theorem scanQueue_match_spec (schedule : List ScheduleStep) (now : ℤ) :
    ∀ (rest visited bots : List QueueEntry) (a b : QueueEntry)
      (bots2 rem : List QueueEntry),
      scanQueue schedule now visited rest bots = (bots2, some (a, b), rem) →
      overdueB now b = false ∧
      isEligible b a (getEloRangeForWaitTime schedule (now - b.joinedAt)) = true := by
  intro rest
  induction rest with
  | nil =>
    intro visited bots a b bots2 rem h
    simp [scanQueue] at h
  | cons e tail ih =>
    intro visited bots a b bots2 rem h
    rw [scanQueue] at h
    by_cases ho : overdueB now e
    · rw [if_pos ho] at h
      exact ih _ _ _ _ _ _ h
    · rw [if_neg ho] at h
      simp only at h
      rcases hf : (visited ++ tail).find?
          (fun q => isEligible e q (getEloRangeForWaitTime schedule (now - e.joinedAt)))
        with _ | opp
      · rw [hf] at h
        exact ih _ _ _ _ _ _ h
      · rw [hf] at h
        simp only [Prod.mk.injEq, Option.some.injEq] at h
        obtain ⟨-, ⟨hoa, hob⟩, -⟩ := h
        subst hoa
        subst hob
        refine ⟨by simpa using ho, by simpa using List.find?_some hf⟩

theorem scanQueue_none_eq (schedule : List ScheduleStep) (now : ℤ) :
    ∀ (rest visited bots : List QueueEntry) (bots2 rem : List QueueEntry),
      scanQueue schedule now visited rest bots = (bots2, none, rem) →
      bots2 = bots ++ rest.filter (overdueB now) ∧
      rem = visited ++ rest.filter (fun e => !overdueB now e) := by
  intro rest
  induction rest with
  | nil =>
    intro visited bots bots2 rem h
    simp only [scanQueue, Prod.mk.injEq] at h
    obtain ⟨h1, -, h2⟩ := h
    simp [h1.symm, h2.symm]
  | cons e tail ih =>
    intro visited bots bots2 rem h
    rw [scanQueue] at h
    by_cases ho : overdueB now e
    · rw [if_pos ho] at h
      obtain ⟨h1, h2⟩ := ih _ _ _ _ h
      constructor
      · rw [h1, List.filter_cons_of_pos ho]
        simp
      · rw [h2, List.filter_cons_of_neg (by simp [ho])]
    · rw [if_neg ho] at h
      simp only at h
      rcases hf : (visited ++ tail).find?
          (fun q => isEligible e q (getEloRangeForWaitTime schedule (now - e.joinedAt)))
        with _ | opp
      · rw [hf] at h
        obtain ⟨h1, h2⟩ := ih _ _ _ _ h
        constructor
        · rw [h1, List.filter_cons_of_neg (by simp [ho])]
        · rw [h2, List.filter_cons_of_pos (by simp [ho])]
          simp
      · rw [hf] at h
        simp at h

/-- Closed form of `getEloRangeForWaitTime` on the configured schedule. -/
theorem getEloRange_concrete (w : ℤ) :
    getEloRangeForWaitTime MATCHMAKING_RANGE_SCHEDULE w =
      if 45000 ≤ w then none
      else if 30000 ≤ w then some 500
      else if 20000 ≤ w then some 350
      else if 10000 ≤ w then some 200
      else some 100 := by
  unfold getEloRangeForWaitTime MATCHMAKING_RANGE_SCHEDULE
  simp only [List.reverse_cons, List.reverse_nil, List.nil_append, List.cons_append,
    List.find?]
  by_cases h45 : 45000 ≤ w
  · simp [h45]
  · by_cases h30 : 30000 ≤ w
    · simp [h45, h30]
    · by_cases h20 : 20000 ≤ w
      · simp [h45, h30, h20]
      · by_cases h10 : 10000 ≤ w
        · simp [h45, h30, h20, h10]
        · by_cases h0 : 0 ≤ w
          · simp [h45, h30, h20, h10, h0]
          · simp [h45, h30, h20, h10, h0]

/-- The configured range schedule is monotone in the wait time. -/
theorem rangeSchedule_monotone :
    ∀ w1 w2 : ℤ, w1 ≤ w2 →
      rangeLe (getEloRangeForWaitTime MATCHMAKING_RANGE_SCHEDULE w1)
        (getEloRangeForWaitTime MATCHMAKING_RANGE_SCHEDULE w2) := by
  intro w1 w2 h
  rw [getEloRange_concrete, getEloRange_concrete]
  split_ifs <;> first | trivial | (exfalso; omega)

/-- C1: for any schedule whose computed range is monotone in wait time
(as the configured one is, `rangeSchedule_monotone`), any two entries the
tick matches into a ranked pair have rating difference within the range
allowed at the larger of their wait times: the scan tests the scanning
entry's range, and its wait is at most the maximum. -/
theorem C1_matched_pair_within_range (schedule : List ScheduleStep) (now : ℤ)
    (queues : List (String × List QueueEntry))
    (hmono : ∀ w1 w2 : ℤ, w1 ≤ w2 →
      rangeLe (getEloRangeForWaitTime schedule w1) (getEloRangeForWaitTime schedule w2))
    (g : String) (a b : QueueEntry)
    (bots rem : List (String × List QueueEntry))
    (h : runMatchmakingTick schedule now queues = (bots, some (g, (a, b)), rem)) :
    rangeAllows
      (getEloRangeForWaitTime schedule (max (now - a.joinedAt) (now - b.joinedAt)))
      (a.elo - b.elo) = true := by
  induction queues generalizing bots rem with
  | nil => simp [runMatchmakingTick] at h
  | cons gq restQs ih =>
    obtain ⟨g0, q0⟩ := gq
    rw [runMatchmakingTick] at h
    rcases hscan : scanQueue schedule now [] q0 [] with ⟨bots0, hm0, rem0⟩
    rw [hscan] at h
    cases hm0 with
    | some pair =>
      simp only [Prod.mk.injEq, Option.some.injEq] at h
      obtain ⟨-, ⟨-, hpair⟩, -⟩ := h
      subst hpair
      obtain ⟨hnotover, helig⟩ :=
        scanQueue_match_spec schedule now q0 [] [] a b bots0 rem0 hscan
      have hr : rangeAllows (getEloRangeForWaitTime schedule (now - b.joinedAt))
          (a.elo - b.elo) = true := by
        unfold isEligible at helig
        rw [Bool.and_eq_true] at helig
        exact helig.2
      exact rangeAllows_mono hr (hmono _ _ (le_max_right _ _))
    | none =>
      rcases hrest : runMatchmakingTick schedule now restQs with ⟨botsRest, hmRest, remRest⟩
      rw [hrest] at h
      simp only [Prod.mk.injEq] at h
      obtain ⟨-, hm, -⟩ := h
      exact ih botsRest remRest (by rw [hrest, hm])

/-- Concrete queue entries used by the C1/C2 witnesses and counterexample:
at tick time 100000, `entryA` and `entryB` are matchable (wait 5000/6000 ms,
rating gap 50 within the initial range 100) and `entryC` is overdue
(wait 70000 ms ≥ the 60000 ms bot-fallback threshold). -/
def entryA : QueueEntry := ⟨"s1", "u1", "A", 1000, "race", 95000, none⟩

/-- See `entryA`. -/
def entryB : QueueEntry := ⟨"s2", "u2", "B", 1050, "race", 94000, none⟩

/-- See `entryA`. -/
def entryC : QueueEntry := ⟨"s3", "u3", "C", 1000, "race", 30000, none⟩

/-- C1 witness: the theorem applied to the configured schedule (whose
monotonicity is `rangeSchedule_monotone`) and a concrete tick that matches
`entryB` with `entryA`. -/
theorem C1_matched_pair_within_range_witness :
    (∀ w1 w2 : ℤ, w1 ≤ w2 →
      rangeLe (getEloRangeForWaitTime MATCHMAKING_RANGE_SCHEDULE w1)
        (getEloRangeForWaitTime MATCHMAKING_RANGE_SCHEDULE w2)) ∧
    rangeAllows
      (getEloRangeForWaitTime MATCHMAKING_RANGE_SCHEDULE
        (max (100000 - entryB.joinedAt) (100000 - entryA.joinedAt)))
      (entryB.elo - entryA.elo) = true := by
  have h : runMatchmakingTick MATCHMAKING_RANGE_SCHEDULE 100000 [("race", [entryA, entryB])] =
      ([("race", [])], some ("race", (entryB, entryA)), [("race", [])]) := by
    norm_num [runMatchmakingTick, scanQueue, overdueB, isEligible, rangeAllows,
      getEloRangeForWaitTime, MATCHMAKING_RANGE_SCHEDULE, MATCHMAKING_BOT_FALLBACK_MS,
      entryA, entryB, List.find?, List.eraseP]
    decide
  exact ⟨rangeSchedule_monotone,
    C1_matched_pair_within_range MATCHMAKING_RANGE_SCHEDULE 100000
      [("race", [entryA, entryB])] rangeSchedule_monotone "race" entryB entryA _ _ h⟩

/-- C2 counterexample: in a tick over the queue `[entryA, entryB, entryC]`,
`entryC` is overdue for bot fallback, but the tick matches `entryA` with
`entryB` first and `return`s, so `entryC` stays queued with no bot match
fired — contradicting the claim that every overdue entry is removed on that
same tick. -/
theorem C2_overdue_entry_survives_tick :
    overdueB 100000 entryC = true ∧
    runMatchmakingTick MATCHMAKING_RANGE_SCHEDULE 100000
        [("race", [entryA, entryB, entryC])] =
      ([("race", [])], some ("race", (entryB, entryA)), [("race", [entryC])]) := by
  constructor
  · rfl
  · norm_num [runMatchmakingTick, scanQueue, overdueB, isEligible, rangeAllows,
      getEloRangeForWaitTime, MATCHMAKING_RANGE_SCHEDULE, MATCHMAKING_BOT_FALLBACK_MS,
      entryA, entryB, entryC, List.find?, List.eraseP]
    decide

/-- C2 amended: on every tick that creates NO ranked match, every queue
entry whose wait time has reached its bot-fallback threshold is removed
from its queue and handed to a bot room (the bot list is exactly the
overdue entries per category and the remaining queues are exactly the
non-overdue ones); when a ranked match fires the tick stops early and later
overdue entries wait for the next tick. -/
theorem C2_no_match_tick_removes_overdue (schedule : List ScheduleStep) (now : ℤ)
    (queues bots rem : List (String × List QueueEntry))
    (h : runMatchmakingTick schedule now queues = (bots, none, rem)) :
    bots = queues.map (fun gq => (gq.1, gq.2.filter (overdueB now))) ∧
    rem = queues.map (fun gq => (gq.1, gq.2.filter (fun e => !overdueB now e))) := by
  induction queues generalizing bots rem with
  | nil =>
    simp only [runMatchmakingTick, Prod.mk.injEq] at h
    obtain ⟨h1, -, h2⟩ := h
    simp [h1.symm, h2.symm]
  | cons gq restQs ih =>
    obtain ⟨g0, q0⟩ := gq
    rw [runMatchmakingTick] at h
    rcases hscan : scanQueue schedule now [] q0 [] with ⟨bots0, hm0, rem0⟩
    rw [hscan] at h
    cases hm0 with
    | some pair => simp at h
    | none =>
      rcases hrest : runMatchmakingTick schedule now restQs with ⟨botsRest, hmRest, remRest⟩
      rw [hrest] at h
      simp only [Prod.mk.injEq] at h
      obtain ⟨hb, hm, hr⟩ := h
      obtain ⟨hb0, hr0⟩ := scanQueue_none_eq schedule now q0 [] [] bots0 rem0 hscan
      obtain ⟨hbR, hrR⟩ := ih botsRest remRest (by rw [hrest, hm])
      constructor
      · rw [hb.symm, List.map_cons, hbR.symm, hb0]
        simp
      · rw [hr.symm, List.map_cons, hrR.symm, hr0]
        simp

/-- C2 witness: a tick over the lone overdue `entryC` makes no ranked match,
removes `entryC` from the queue and hands it to a bot room. -/
theorem C2_no_match_tick_removes_overdue_witness :
    runMatchmakingTick MATCHMAKING_RANGE_SCHEDULE 100000 [("race", [entryC])] =
      ([("race", [entryC])], none, [("race", [])]) ∧
    [("race", [entryC])] =
      [("race", [entryC])].map (fun gq => (gq.1, gq.2.filter (overdueB 100000))) ∧
    [("race", [])] =
      [("race", [entryC])].map (fun gq => (gq.1, gq.2.filter (fun e => !overdueB 100000 e))) := by
  have h : runMatchmakingTick MATCHMAKING_RANGE_SCHEDULE 100000 [("race", [entryC])] =
      ([("race", [entryC])], none, [("race", [])]) := by
    norm_num [runMatchmakingTick, scanQueue, overdueB, isEligible, rangeAllows,
      getEloRangeForWaitTime, MATCHMAKING_RANGE_SCHEDULE, MATCHMAKING_BOT_FALLBACK_MS,
      entryC, List.find?, List.eraseP]
  exact ⟨h, C2_no_match_tick_removes_overdue MATCHMAKING_RANGE_SCHEDULE 100000
    [("race", [entryC])] _ _ h⟩

/-! ## Rooms and the gateway score handlers
(`matchmaking.ts` room management, `handlers.ts` in-game events) -/

/-- `mode: 'ranked' | 'unranked' | 'friend' | 'bot_fallback'`. -/
inductive RoomMode
  | ranked
  | unranked
  | friend
  | bot_fallback
  deriving DecidableEq, Repr

/-- A player slot of a `GameRoom` (`player1`/`player2`). -/
structure RoomPlayer where
  socketId : String
  userId : String
  username : String
  elo : ℚ
  score : ℤ
  deriving DecidableEq, Repr

/-- `GameRoom` from `matchmaking.ts`.  `roomId` is a `uuidv4()` string in
the source; uuid freshness is modelled by drawing ids from a counter.  The
`pairs` content array is opaque to every claim here and is omitted. -/
structure GameRoom where
  roomId : ℕ
  roomCode : String
  gameType : String
  player1 : RoomPlayer
  player2 : Option RoomPlayer
  isActive : Bool
  startedAt : Option ℤ
  mode : RoomMode
  deriving DecidableEq, Repr

/-- The `currentPlayer` selection shared by the `updateScore` and
`submitAnswer` handlers
(`room.player1.userId === socket.userId ? room.player1 : room.player2`),
projected to the selected player's score. -/
def scoreOf (room : GameRoom) (userId : String) : Option ℤ :=
  if room.player1.userId = userId then some room.player1.score
  else room.player2.map (·.score)

/-- The clamping core of the `updateScore` handler applied to one player
slot: `newScore` is `Math.floor(Number(data.score))` (`none` models `NaN`).
Returns the slot's new score, unchanged when the update is rejected. -/
def clampScoreUpdate (current : ℤ) (newScore : Option ℤ) : ℤ :=
  match newScore with
  | none => current
  | some n =>
    if n < 0 then current
    else if current + 1 < n then current + 1
    else n

/-- The `updateScore` socket handler (`handlers.ts`): look the room up,
select `currentPlayer`, and apply the clamped score update.  The inputs are
the room-lookup result (`getRoom`), the authenticated user id, and the
floored reported score (`none` models `NaN`, which the handler rejects). -/
def updateScoreHandler (room? : Option GameRoom) (userId : String)
    (reported : Option ℤ) : Option GameRoom :=
  match room? with
  | none => none
  | some room =>
    if room.player1.userId = userId then
      some { room with
        player1 := { room.player1 with
          score := clampScoreUpdate room.player1.score reported } }
    else
      match room.player2 with
      | none => some room
      | some p2 =>
        some { room with
          player2 := some { p2 with score := clampScoreUpdate p2.score reported } }

theorem clampScoreUpdate_le (current : ℤ) (newScore : Option ℤ) :
    clampScoreUpdate current newScore ≤ current + 1 := by
  cases newScore with
  | none => simp [clampScoreUpdate]
  | some n =>
    simp only [clampScoreUpdate]
    split_ifs <;> omega

/-- C6: a single `updateScore` call on an existing room by a player in the
room can raise that player's recorded score by at most 1, whatever score
value the client reports. -/
theorem C6_score_update_clamped (room room2 : GameRoom) (userId : String)
    (reported : Option ℤ) (s s2 : ℤ)
    (hrun : updateScoreHandler (some room) userId reported = some room2)
    (hs : scoreOf room userId = some s)
    (hs2 : scoreOf room2 userId = some s2) :
    s2 ≤ s + 1 := by
  simp only [updateScoreHandler] at hrun
  unfold scoreOf at hs hs2
  by_cases h1 : room.player1.userId = userId
  · rw [if_pos h1] at hrun hs
    obtain ⟨rfl⟩ := Option.some.injEq .. ▸ hrun
    rw [if_pos h1] at hs2
    simp only [Option.some.injEq] at hs hs2
    subst hs
    subst hs2
    exact clampScoreUpdate_le _ _
  · rw [if_neg h1] at hrun hs
    cases hp2 : room.player2 with
    | none => rw [hp2] at hs; simp at hs
    | some p2 =>
      rw [hp2] at hrun hs
      simp only [Option.some.injEq] at hrun
      subst hrun
      rw [if_neg h1] at hs2
      simp only [Option.map_some', Option.some.injEq] at hs hs2
      subst hs
      subst hs2
      exact clampScoreUpdate_le _ _

/-- A concrete room used by handler witnesses: two human players with
scores 3 and 5. -/
def demoRoom : GameRoom :=
  { roomId := 0
    roomCode := "ABCDEF"
    gameType := "asteroid"
    player1 := ⟨"s1", "u1", "A", 1000, 3⟩
    player2 := some ⟨"s2", "u2", "B", 1050, 5⟩
    isActive := true
    startedAt := some 0
    mode := .ranked }

/-- C6 witness: player u2 reports a jump to 99999; the recorded score goes
from 5 to at most 6 (in fact exactly 6). -/
theorem C6_score_update_clamped_witness :
    updateScoreHandler (some demoRoom) "u2" (some 99999) =
      some { demoRoom with
        player2 := some ⟨"s2", "u2", "B", 1050, 6⟩ } ∧
    scoreOf demoRoom "u2" = some 5 ∧
    scoreOf { demoRoom with player2 := some ⟨"s2", "u2", "B", 1050, 6⟩ } "u2" = some 6 ∧
    (6 : ℤ) ≤ 5 + 1 := by
  have hrun : updateScoreHandler (some demoRoom) "u2" (some 99999) =
      some { demoRoom with player2 := some ⟨"s2", "u2", "B", 1050, 6⟩ } := by
    norm_num [updateScoreHandler, clampScoreUpdate, demoRoom]
    decide
  have hs : scoreOf demoRoom "u2" = some 5 := by
    norm_num [scoreOf, demoRoom]
    decide
  have hs2 : scoreOf { demoRoom with player2 := some ⟨"s2", "u2", "B", 1050, 6⟩ } "u2" =
      some 6 := by
    norm_num [scoreOf, demoRoom]
    decide
  exact ⟨hrun, hs, hs2,
    C6_score_update_clamped demoRoom _ "u2" (some 99999) 5 6 hrun hs hs2⟩


/-! ## Socket rate limiting (C7)
(`src/server/middleware/security.ts` `checkSocketRateLimit`, and the
`checkRate(n)` guards of the handlers in `handlers.ts`: `joinQueue`,
`createRoom`, `joinRoom`, `endGame` pass 5, `submitAnswer` and
`updateScore` pass 60, and `leaveQueue` performs no check). -/

structure RateEntry where
  count : ℕ
  resetAt : ℤ
  deriving DecidableEq, Repr

def WINDOW_MS : ℤ := 10000

def checkSocketRateLimit (entry? : Option RateEntry) (now : ℤ)
    (maxPerWindow : ℕ) (windowMs : ℤ) : Bool × RateEntry :=
  match entry? with
  | none => (true, ⟨1, now + windowMs⟩)
  | some entry =>
    if entry.resetAt < now then (true, ⟨1, now + windowMs⟩)
    else (decide (entry.count + 1 ≤ maxPerWindow), ⟨entry.count + 1, entry.resetAt⟩)

inductive SocketAction
  | joinQueue
  | leaveQueue
  | createRoom
  | joinRoom
  | submitAnswer
  | updateScore
  | endGame
  deriving DecidableEq, Repr

def rateLimitOf : SocketAction → Option ℕ
  | .joinQueue => some 5
  | .leaveQueue => none
  | .createRoom => some 5
  | .joinRoom => some 5
  | .submitAnswer => some 60
  | .updateScore => some 60
  | .endGame => some 5

structure GateOutcome where
  allowed : Bool
  errorEmitted : Bool
  disconnected : Bool
  deriving DecidableEq, Repr

def processAction (st : Option RateEntry) (now : ℤ) (a : SocketAction) :
    GateOutcome × Option RateEntry :=
  match rateLimitOf a with
  | none => (⟨true, false, false⟩, st)
  | some m =>
    match checkSocketRateLimit st now m WINDOW_MS with
    | (true, e) => (⟨true, false, false⟩, some e)
    | (false, e) => (⟨false, true, false⟩, some e)

def runActionsAt (now : ℤ) : Option RateEntry → List SocketAction →
    List (SocketAction × GateOutcome)
  | _, [] => []
  | st, a :: rest =>
    match processAction st now a with
    | (o, st2) => (a, o) :: runActionsAt now st2 rest

def countOf : Option RateEntry → ℕ
  | none => 0
  | some e => e.count

def WindowLive (st : Option RateEntry) (now : ℤ) : Prop :=
  ∀ e, st = some e → now ≤ e.resetAt

theorem runActionsAt_budget (L : ℕ) (pred : SocketAction → Bool)
    (hpred : ∀ a m, pred a = true → rateLimitOf a = some m → 1 ≤ m ∧ m ≤ L)
    (hpredSome : ∀ a, pred a = true → rateLimitOf a ≠ none)
    (now : ℤ) :
    ∀ (acts : List SocketAction) (st : Option RateEntry), WindowLive st now →
      (runActionsAt now st acts).countP (fun x => pred x.1 && x.2.allowed) +
        min L (countOf st) ≤ L := by
  intro acts
  induction acts with
  | nil =>
    intro st hlive
    simp [runActionsAt]
  | cons a rest ih =>
    intro st hlive
    rw [runActionsAt]
    rcases hlim : rateLimitOf a with _ | m
    · have hpa : pred a = false := by
        rcases hb : pred a with _ | _
        · rfl
        · exact absurd hlim (hpredSome a hb)
      simp only [processAction, hlim]
      rw [List.countP_cons]
      simp only [hpa, Bool.false_and, if_neg Bool.false_ne_true, Nat.add_zero]
      exact ih st hlive
    · simp only [processAction, hlim]
      cases st with
      | none =>
        simp only [checkSocketRateLimit]
        have hnew : WindowLive (some ⟨1, now + WINDOW_MS⟩) now := by
          intro e2 he2
          injection he2 with h
          subst h
          show now ≤ now + WINDOW_MS
          unfold WINDOW_MS
          omega
        have hih := ih (some ⟨1, now + WINDOW_MS⟩) hnew
        rw [List.countP_cons]
        simp only [countOf] at hih ⊢
        rcases hb : pred a with _ | _
        · simp only [hb, Bool.false_and, if_neg Bool.false_ne_true, Nat.add_zero]
          omega
        · obtain ⟨hm1, hmL⟩ := hpred a m hb hlim
          simp only [hb, Bool.true_and, if_pos trivial, ite_true]
          omega
      | some e =>
        have hne : ¬ e.resetAt < now := by
          have hl := hlive e rfl
          omega
        have hnew : WindowLive (some ⟨e.count + 1, e.resetAt⟩) now := by
          intro e2 he2
          injection he2 with h
          subst h
          show now ≤ e.resetAt
          exact hlive e rfl
        have hih := ih (some ⟨e.count + 1, e.resetAt⟩) hnew
        simp only [checkSocketRateLimit, if_neg hne]
        rcases hall : decide (e.count + 1 ≤ m) with _ | _
        · simp only
          rw [List.countP_cons]
          simp only [Bool.and_false, if_neg Bool.false_ne_true, Nat.add_zero]
          simp only [countOf] at hih ⊢
          omega
        · simp only
          rw [decide_eq_true_eq] at hall
          rw [List.countP_cons]
          simp only [countOf] at hih ⊢
          rcases hb : pred a with _ | _
          · simp only [hb, Bool.false_and, if_neg Bool.false_ne_true, Nat.add_zero]
            omega
          · obtain ⟨hm1, hmL⟩ := hpred a m hb hlim
            simp only [hb, Bool.true_and, if_pos trivial, ite_true]
            omega

theorem processAction_outcome (st : Option RateEntry) (now : ℤ) (a : SocketAction) :
    (processAction st now a).1.disconnected = false ∧
      ((processAction st now a).1.allowed = false →
        (processAction st now a).1.errorEmitted = true) := by
  unfold processAction
  rcases rateLimitOf a with _ | m
  · simp
  · rcases h : checkSocketRateLimit st now m WINDOW_MS with ⟨b, e⟩
    cases b <;> simp [h]

theorem runActionsAt_outcomes (now : ℤ) :
    ∀ (acts : List SocketAction) (st : Option RateEntry),
      ∀ p ∈ runActionsAt now st acts,
        p.2.disconnected = false ∧ (p.2.allowed = false → p.2.errorEmitted = true) := by
  intro acts
  induction acts with
  | nil => intro st p hp; simp [runActionsAt] at hp
  | cons a rest ih =>
    intro st p hp
    rw [runActionsAt] at hp
    rcases hpa : processAction st now a with ⟨o, st2⟩
    rw [hpa] at hp
    rcases List.mem_cons.mp hp with h | h
    · subst h
      have ho := processAction_outcome st now a
      rw [hpa] at ho
      exact ho
    · exact ih st2 p h

/-- C7 amended: the gateway keeps ONE fixed-window counter per connection
shared by all rate-limited actions, with per-action thresholds (5 for
joinQueue/createRoom/joinRoom/endGame, 60 for submitAnswer/updateScore) and
no check at all on leaveQueue; within one 10-second window at most 5
threshold-5 actions and at most 60 rate-limited actions are accepted in
total; a rejected action gets an error event and the connection is never
disconnected by rate limiting. -/
theorem C7_shared_window_budgets (now : ℤ) (acts : List SocketAction) :
    (runActionsAt now none acts).countP
        (fun x => decide (rateLimitOf x.1 = some 5) && x.2.allowed) ≤ 5 ∧
    (runActionsAt now none acts).countP
        (fun x => (rateLimitOf x.1).isSome && x.2.allowed) ≤ 60 ∧
    ∀ p ∈ runActionsAt now none acts,
      p.2.disconnected = false ∧ (p.2.allowed = false → p.2.errorEmitted = true) := by
  refine ⟨?_, ?_, runActionsAt_outcomes now acts none⟩
  · have h := runActionsAt_budget 5 (fun a => decide (rateLimitOf a = some 5))
      (by
        intro a m hp hl
        rw [decide_eq_true_eq] at hp
        rw [hp] at hl
        injection hl with h2
        omega)
      (by
        intro a hp
        rw [decide_eq_true_eq] at hp
        rw [hp]
        simp)
      now acts none (by intro e he; simp at he)
    simpa [countOf] using h
  · have h := runActionsAt_budget 60 (fun a => (rateLimitOf a).isSome)
      (by
        intro a m hp hl
        cases a <;> first | (injection hl with h2; omega) | injection hl)
      (by
        intro a hp hl
        simp [hl] at hp)
      now acts none (by intro e he; simp at he)
    simpa [countOf] using h

/-- C7 counterexample: the claim lists leave-queue among the actions
limited to about 5 per 10-second window, but the `leaveQueue` handler
performs no rate-limit check: 50 leave-queue actions inside a single window
are all accepted. -/
theorem C7_leave_queue_not_limited :
    (runActionsAt 0 none (List.replicate 50 .leaveQueue)).countP
        (fun x => x.2.allowed) = 50 ∧ ¬ ((50:ℕ) ≤ 5) := by
  constructor
  · decide
  · decide

/-- C7 witness: the amended theorem applied at time 0 to a concrete burst of
seven actions. -/
theorem C7_shared_window_budgets_witness :
    (runActionsAt 0 none
        [SocketAction.joinQueue, SocketAction.updateScore, SocketAction.leaveQueue,
         SocketAction.joinRoom, SocketAction.createRoom, SocketAction.endGame,
         SocketAction.submitAnswer]).countP
        (fun x => decide (rateLimitOf x.1 = some 5) && x.2.allowed) ≤ 5 ∧
    (runActionsAt 0 none
        [SocketAction.joinQueue, SocketAction.updateScore, SocketAction.leaveQueue,
         SocketAction.joinRoom, SocketAction.createRoom, SocketAction.endGame,
         SocketAction.submitAnswer]).countP
        (fun x => (rateLimitOf x.1).isSome && x.2.allowed) ≤ 60 ∧
    ∀ p ∈ runActionsAt 0 none
        [SocketAction.joinQueue, SocketAction.updateScore, SocketAction.leaveQueue,
         SocketAction.joinRoom, SocketAction.createRoom, SocketAction.endGame,
         SocketAction.submitAnswer],
      p.2.disconnected = false ∧ (p.2.allowed = false → p.2.errorEmitted = true) :=
  C7_shared_window_budgets 0
    [SocketAction.joinQueue, SocketAction.updateScore, SocketAction.leaveQueue,
     SocketAction.joinRoom, SocketAction.createRoom, SocketAction.endGame,
     SocketAction.submitAnswer]

/-! ## Winner determination and rating results (C10)
(`gameSession.ts` `saveGameSession`, `handlers.ts` `endGame`,
`elo.ts` `updateEloAfterGame`) -/

/-- The winner computation of `saveGameSession`:
`player1Score > player2Score ? player1Id : player2Score > player1Score ?
player2Id : null`.  `player2Id` is already `string | null` there (null for
bot opponents). -/
def sessionWinner (player1Id : String) (player2Id : Option String)
    (player1Score player2Score : ℤ) : Option String :=
  if player2Score < player1Score then some player1Id
  else if player1Score < player2Score then player2Id
  else none

/-- The winner computation of the `endGame` handler, over the two room
participants' user ids and scores. -/
def endGameWinner (player1Id player2Id : String)
    (player1Score player2Score : ℤ) : Option String :=
  if player2Score < player1Score then some player1Id
  else if player1Score < player2Score then some player2Id
  else none

/-- The result assignment of `updateEloAfterGame`: a null winner is a draw
for both, `winnerId === player1Id` gives player1 the win, anything else
gives player2 the win.  Returns `(player1Result, player2Result)`. -/
def eloResults (winnerId : Option String) (player1Id : String) :
    GameResult × GameResult :=
  match winnerId with
  | none => (.draw, .draw)
  | some w => if w = player1Id then (.win, .loss) else (.loss, .win)

/-- C10: the winner is the participant with the strictly greater score and
equal scores give a null winner; the `endGame` handler computes the very
same value that is persisted in the session record; and feeding that winner
into the rating update yields win/loss for the strict-winner and draw/draw
on ties. -/
theorem C10_winner_rule_consistent (player1Id player2Id : String)
    (s1 s2 : ℤ) (hne : player1Id ≠ player2Id) :
    (sessionWinner player1Id (some player2Id) s1 s2 = some player1Id ↔ s2 < s1) ∧
    (sessionWinner player1Id (some player2Id) s1 s2 = some player2Id ↔ s1 < s2) ∧
    (sessionWinner player1Id (some player2Id) s1 s2 = none ↔ s1 = s2) ∧
    endGameWinner player1Id player2Id s1 s2 =
      sessionWinner player1Id (some player2Id) s1 s2 ∧
    eloResults (sessionWinner player1Id (some player2Id) s1 s2) player1Id =
      (if s2 < s1 then (GameResult.win, GameResult.loss)
       else if s1 < s2 then (GameResult.loss, GameResult.win)
       else (GameResult.draw, GameResult.draw)) := by
  have hne2 : player2Id ≠ player1Id := Ne.symm hne
  rcases lt_trichotomy s1 s2 with h | h | h
  · simp only [sessionWinner, endGameWinner, eloResults,
      if_neg (show ¬ s2 < s1 by omega), if_pos h]
    refine ⟨?_, ?_, ?_, by trivial, ?_⟩
    · simp only [Option.some.injEq]
      exact ⟨fun hx => absurd hx hne2, fun hx => absurd hx (by omega)⟩
    · simp [h]
    · exact ⟨fun hx => by simp at hx, fun hx => absurd hx (by omega)⟩
    · simp [hne2]
  · subst h
    simp only [sessionWinner, endGameWinner, eloResults,
      if_neg (show ¬ s1 < s1 by omega)]
    exact ⟨by simp, by simp, by simp, by trivial, by trivial⟩
  · simp only [sessionWinner, endGameWinner, eloResults, if_pos h]
    refine ⟨?_, ?_, ?_, by trivial, ?_⟩
    · simp [h]
    · simp only [Option.some.injEq]
      exact ⟨fun hx => absurd hx hne, fun hx => absurd hx (by omega)⟩
    · exact ⟨fun hx => by simp at hx, fun hx => absurd hx (by omega)⟩
    · simp [if_pos h]

/-- C10 witness: the theorem applied to users u1, u2 with scores 3 and 5:
u2 wins, the handler agrees, and the rating update sees (loss, win). -/
theorem C10_winner_rule_consistent_witness :
    "u1" ≠ "u2" ∧
      (sessionWinner "u1" (some "u2") 3 5 = some "u2" ∧
        endGameWinner "u1" "u2" 3 5 = sessionWinner "u1" (some "u2") 3 5 ∧
        eloResults (sessionWinner "u1" (some "u2") 3 5) "u1" =
          (GameResult.loss, GameResult.win)) := by
  have hne : "u1" ≠ "u2" := by decide
  obtain ⟨h1, h2, h3, h4, h5⟩ := C10_winner_rule_consistent "u1" "u2" 3 5 hne
  refine ⟨hne, h2.mpr (by norm_num), h4, ?_⟩
  rw [h5]
  norm_num

/-! ## Session persistence (`gameSession.ts`, `elo.ts`) — C5

The persistent store is modelled as the slice of tables the session-save
path can write: `elo_ratings` (the RatingRecords), `game_sessions` (the
SessionRecords) and `user_stats` (aggregate stats), the first and last
keyed by `(userId, gameType)`.  The badge helpers
(`checkGameCountBadges`, `checkStreakBadges`, `checkEloBasedBadges`) read
the `badges` table and insert `user_badges` rows only, so they cannot touch
the modelled tables and appear as no-ops here.  Supabase errors are outside
the model (the success path is embedded). -/

/-- A persisted `elo_ratings` row; `peak_elo` and `games_played` are
nullable columns (the code guards them with `?? DEFAULT_ELO` / `?? 0`). -/
structure EloRow where
  elo : ℚ
  peakElo : Option ℚ
  gamesPlayed : Option ℕ
  deriving DecidableEq, Repr

/-- A persisted `game_sessions` row. -/
structure SessionRow where
  gameType : String
  mode : String
  player1Id : String
  player2Id : Option String
  player1Score : ℤ
  player2Score : ℤ
  winnerId : Option String
  durationMs : ℤ
  pairSetId : Option String
  deriving DecidableEq, Repr

/-- A persisted `user_stats` row. -/
structure StatsRow where
  gamesPlayed : ℕ
  wins : ℕ
  losses : ℕ
  avgTimeMs : ℚ
  bestScore : ℤ
  currentStreak : ℕ
  deriving DecidableEq, Repr

/-- The modelled slice of the persistent store. -/
structure DBState where
  eloRatings : String → String → Option EloRow
  sessions : List SessionRow
  userStats : String → String → Option StatsRow

/-- `GAME_TYPES` from `elo.ts`; the `neq('game_type', ...)` query of
`getSeededStartingElo` is modelled by enumerating these (the application
only ever writes rows for these types). -/
def GAME_TYPES : List String := ["asteroid", "race", "match", "wager"]

/-- The `supabase` query of `getSeededStartingElo`: all of the user's
rating rows in game types other than `gameType`. -/
def otherRatingsOf (userId gameType : String) (db : DBState) : List SeedRow :=
  GAME_TYPES.filterMap (fun g =>
    if g ≠ gameType then
      (db.eloRatings userId g).map (fun r => SeedRow.mk r.elo r.gamesPlayed)
    else none)

/-- `ensureEloRow`: return the existing row, or insert (and return) a row
seeded by `getSeededStartingElo` with `peak_elo` the seed and 0 games. -/
def ensureEloRow (userId gameType : String) (db : DBState) : EloRow × DBState :=
  match db.eloRatings userId gameType with
  | some existing => (existing, db)
  | none =>
    let seeded := getSeededStartingElo (otherRatingsOf userId gameType db)
    let row : EloRow := ⟨seeded, some seeded, some 0⟩
    (row, { db with eloRatings := fun u g =>
        if u = userId ∧ g = gameType then some row else db.eloRatings u g })

/-- `getGamesPlayed`: the row's `games_played` when non-null, else the
count of the user's `game_sessions` rows in that game type. -/
def getGamesPlayed (userId gameType : String) (db : DBState) : ℕ :=
  match (db.eloRatings userId gameType).bind (·.gamesPlayed) with
  | some n => n
  | none =>
    (db.sessions.filter (fun srow =>
      (srow.player1Id = userId ∨ srow.player2Id = some userId) ∧
        srow.gameType = gameType)).length

/-- The `elo_ratings` upsert of `updateEloAfterGame` for one player. -/
def upsertElo (userId gameType : String) (row : EloRow) (db : DBState) : DBState :=
  { db with eloRatings := fun u g =>
      if u = userId ∧ g = gameType then some row else db.eloRatings u g }

/-- `updateEloAfterGame` as a transformer of the modelled store: ensure both
players' rating rows exist (seeding new ones), read ratings and game
counts, compute both new ratings via `calculateNewElo`, and upsert both
rows with updated elo, peak and game count.  The badge checks touch only
unmodelled tables. -/
noncomputable def updateEloAfterGame (player1Id player2Id gameType : String)
    (winnerId : Option String) (db0 : DBState) : DBState :=
  let e1 := ensureEloRow player1Id gameType db0
  let e2 := ensureEloRow player2Id gameType e1.2
  let db2 := e2.2
  let p1Rating := db2.eloRatings player1Id gameType
  let p2Rating := db2.eloRatings player2Id gameType
  let p1Elo := (p1Rating.map (·.elo)).getD DEFAULT_ELO
  let p2Elo := (p2Rating.map (·.elo)).getD DEFAULT_ELO
  let p1Games := getGamesPlayed player1Id gameType db2
  let p2Games := getGamesPlayed player2Id gameType db2
  let results := eloResults winnerId player1Id
  let p1NewElo := calculateNewElo p1Elo p2Elo results.1 (getKFactor p1Games)
  let p2NewElo := calculateNewElo p2Elo p1Elo results.2 (getKFactor p2Games)
  let db3 := upsertElo player1Id gameType
    ⟨p1NewElo, some (max p1NewElo ((p1Rating.bind (·.peakElo)).getD DEFAULT_ELO)),
      some (p1Games + 1)⟩ db2
  upsertElo player2Id gameType
    ⟨p2NewElo, some (max p2NewElo ((p2Rating.bind (·.peakElo)).getD DEFAULT_ELO)),
      some (p2Games + 1)⟩ db3

/-- `updateUserStats`: update or insert the `(userId, gameType)` stats row. -/
def updateUserStats (userId gameType : String) (score : ℤ) (won : Bool)
    (durationMs : ℤ) (db : DBState) : DBState :=
  match db.userStats userId gameType with
  | some existing =>
    let newGamesPlayed := existing.gamesPlayed + 1
    let newStats : StatsRow :=
      { gamesPlayed := newGamesPlayed
        wins := existing.wins + (if won then 1 else 0)
        losses := existing.losses + (if won then 0 else 1)
        avgTimeMs := ((roundJS ((existing.avgTimeMs * (existing.gamesPlayed : ℚ) +
          (durationMs : ℚ)) / (newGamesPlayed : ℚ)) : ℤ) : ℚ)
        bestScore := max existing.bestScore score
        currentStreak := if won then existing.currentStreak + 1 else 0 }
    { db with userStats := fun u g =>
        if u = userId ∧ g = gameType then some newStats else db.userStats u g }
  | none =>
    { db with userStats := fun u g =>
        if u = userId ∧ g = gameType then
          some { gamesPlayed := 1
                 wins := if won then 1 else 0
                 losses := if won then 0 else 1
                 avgTimeMs := (durationMs : ℚ)
                 bestScore := score
                 currentStreak := if won then 1 else 0 }
        else db.userStats u g }

/-- The parameters of `saveGameSession`. -/
structure SaveParams where
  gameType : String
  mode : String
  player1Id : String
  player2Id : Option String
  player1Score : ℤ
  player2Score : ℤ
  durationMs : ℤ
  pairSetId : Option String
  deriving DecidableEq, Repr

/-- The `game_sessions` row `saveGameSession` inserts. -/
def sessionRecordOf (params : SaveParams) : SessionRow :=
  { gameType := params.gameType
    mode := params.mode
    player1Id := params.player1Id
    player2Id := params.player2Id
    player1Score := params.player1Score
    player2Score := params.player2Score
    winnerId := sessionWinner params.player1Id params.player2Id
      params.player1Score params.player2Score
    durationMs := params.durationMs
    pairSetId := params.pairSetId }

/-- `saveGameSession` as a transformer of the modelled store: insert the
session row, update both players' aggregate stats (skipping the second when
`player2Id` is null), and update ratings only when
`params.mode === 'ranked' && params.player2Id` — in JS the second conjunct
is also falsy for the empty string, which the model mirrors. -/
noncomputable def saveGameSession (params : SaveParams) (db0 : DBState) : DBState :=
  let winnerId := sessionWinner params.player1Id params.player2Id
    params.player1Score params.player2Score
  let db1 : DBState := { db0 with sessions := db0.sessions ++ [sessionRecordOf params] }
  let db2 := updateUserStats params.player1Id params.gameType params.player1Score
    (decide (winnerId = some params.player1Id)) params.durationMs db1
  let db3 :=
    match params.player2Id with
    | some p2 => updateUserStats p2 params.gameType params.player2Score
        (decide (winnerId = some p2)) params.durationMs db2
    | none => db2
  match params.player2Id with
  | some p2 =>
    if params.mode = "ranked" ∧ p2 ≠ "" then
      updateEloAfterGame params.player1Id p2 params.gameType winnerId db3
    else db3
  | none => db3

theorem updateUserStats_frame (u g : String) (sc : ℤ) (w : Bool) (d : ℤ)
    (db : DBState) :
    (updateUserStats u g sc w d db).eloRatings = db.eloRatings ∧
    (updateUserStats u g sc w d db).sessions = db.sessions := by
  unfold updateUserStats
  rcases h : db.userStats u g with _ | ex <;> simp [h]

theorem updateUserStats_written (u g : String) (sc : ℤ) (w : Bool) (d : ℤ)
    (db : DBState) :
    ((updateUserStats u g sc w d db).userStats u g).isSome := by
  unfold updateUserStats
  rcases h : db.userStats u g with _ | ex <;> simp [h]

theorem updateUserStats_keeps (u0 g0 u g : String) (sc : ℤ) (w : Bool) (d : ℤ)
    (db : DBState) (hs : (db.userStats u g).isSome) :
    ((updateUserStats u0 g0 sc w d db).userStats u g).isSome := by
  unfold updateUserStats
  rcases h : db.userStats u0 g0 with _ | ex <;>
    · simp only
      by_cases hk : u = u0 ∧ g = g0 <;> simp [hk, hs]

/-- C5: saving a session whose mode is not "ranked" or whose second
participant is a bot (`player2Id` null) appends the session record and
writes aggregate stats for the participants, but performs no write to any
rating row: the whole `elo_ratings` table is unchanged. -/
theorem C5_non_ranked_no_rating_write (params : SaveParams) (db : DBState)
    (h : params.mode ≠ "ranked" ∨ params.player2Id = none) :
    (saveGameSession params db).eloRatings = db.eloRatings ∧
    (saveGameSession params db).sessions = db.sessions ++ [sessionRecordOf params] ∧
    ((saveGameSession params db).userStats params.player1Id params.gameType).isSome ∧
    (∀ p2, params.player2Id = some p2 →
      ((saveGameSession params db).userStats p2 params.gameType).isSome) := by
  unfold saveGameSession
  rcases hp2 : params.player2Id with _ | p2
  · simp only [hp2]
    set db1 : DBState := { db with sessions := db.sessions ++ [sessionRecordOf params] } with hdb1
    obtain ⟨hf1, hf2⟩ := updateUserStats_frame params.player1Id params.gameType
      params.player1Score
      (decide (sessionWinner params.player1Id params.player2Id params.player1Score
        params.player2Score = some params.player1Id)) params.durationMs db1
    refine ⟨?_, ?_, ?_, ?_⟩
    · rw [hp2] at hf1
      rw [hf1]
    · rw [hp2] at hf2
      rw [hf2]
    · exact updateUserStats_written _ _ _ _ _ _
    · intro p2 hcontra
      simp at hcontra
  · have hmode : params.mode ≠ "ranked" := by
      rcases h with h | h
      · exact h
      · rw [hp2] at h
        simp at h
    simp only [hp2]
    rw [if_neg (fun hc => absurd hc.1 hmode)]
    set db1 : DBState := { db with sessions := db.sessions ++ [sessionRecordOf params] } with hdb1
    obtain ⟨h1e, h1s⟩ := updateUserStats_frame params.player1Id params.gameType
      params.player1Score
      (decide (sessionWinner params.player1Id params.player2Id params.player1Score
        params.player2Score = some params.player1Id)) params.durationMs db1
    refine ⟨?_, ?_, ?_, ?_⟩
    · obtain ⟨h2e, -⟩ := updateUserStats_frame p2 params.gameType params.player2Score
        (decide (sessionWinner params.player1Id params.player2Id params.player1Score
          params.player2Score = some p2)) params.durationMs
        (updateUserStats params.player1Id params.gameType params.player1Score
          (decide (sessionWinner params.player1Id params.player2Id params.player1Score
            params.player2Score = some params.player1Id)) params.durationMs db1)
      rw [hp2] at h2e h1e
      rw [h2e, h1e]
    · obtain ⟨-, h2s⟩ := updateUserStats_frame p2 params.gameType params.player2Score
        (decide (sessionWinner params.player1Id params.player2Id params.player1Score
          params.player2Score = some p2)) params.durationMs
        (updateUserStats params.player1Id params.gameType params.player1Score
          (decide (sessionWinner params.player1Id params.player2Id params.player1Score
            params.player2Score = some params.player1Id)) params.durationMs db1)
      rw [hp2] at h2s h1s
      rw [h2s, h1s]
    · exact updateUserStats_keeps _ _ _ _ _ _ _ _
        (updateUserStats_written _ _ _ _ _ _)
    · intro q hq
      injection hq with hq2
      subst hq2
      exact updateUserStats_written _ _ _ _ _ _

/-- A store with no rows, used by the C5 witness. -/
def emptyDB : DBState := ⟨fun _ _ => none, [], fun _ _ => none⟩

/-- The bot-fallback session of the C5 witness: the human u1 beat a bot
(`player2Id` null). -/
def botSessionParams : SaveParams :=
  { gameType := "race"
    mode := "bot_fallback"
    player1Id := "u1"
    player2Id := none
    player1Score := 7
    player2Score := 4
    durationMs := 60000
    pairSetId := none }

/-- C5 witness: saving a completed bot-fallback session on an empty store
writes the session record and a stats row but leaves every rating
unchanged. -/
theorem C5_non_ranked_no_rating_write_witness :
    (botSessionParams.mode ≠ "ranked" ∨ botSessionParams.player2Id = none) ∧
    ((saveGameSession botSessionParams emptyDB).eloRatings = emptyDB.eloRatings ∧
      (saveGameSession botSessionParams emptyDB).sessions =
        emptyDB.sessions ++ [sessionRecordOf botSessionParams] ∧
      ((saveGameSession botSessionParams emptyDB).userStats
        botSessionParams.player1Id botSessionParams.gameType).isSome ∧
      (∀ p2, botSessionParams.player2Id = some p2 →
        ((saveGameSession botSessionParams emptyDB).userStats
          p2 botSessionParams.gameType).isSome)) :=
  ⟨Or.inr rfl, C5_non_ranked_no_rating_write botSessionParams emptyDB (Or.inr rfl)⟩

/-! ## Room manager state machine (C8)
(`matchmaking.ts`: `generateRoomCode`, `createRoom`, `createBotRoom`,
`createRankedRoom`, `joinRoom`, `deleteRoom`)

`activeRooms` and `roomCodeMap` are the two module-level `Map`s, embedded
as partial functions.  `uuidv4()` room ids are modelled by a fresh counter
(`nextId`); the uniform-random code draws of `generateRoomCode` are
modelled by an explicit candidate supply, from which the first code not
colliding with a live one is taken — the source retries on collision
forever, so an exhausted supply models non-termination and leaves the
state unchanged. -/

/-- `BotConfig` from `matchmaking.ts`. -/
structure BotConfig where
  accuracy : ℚ
  name : String
  deriving DecidableEq, Repr

/-- `getBotConfig(playerElo)`: bot difficulty from the player's rating. -/
def getBotConfig (playerElo : ℚ) : BotConfig :=
  if playerElo < BOT_ELO_EASY then ⟨BOT_ACCURACY_EASY, "EasyBot"⟩
  else if playerElo < BOT_ELO_MEDIUM then ⟨BOT_ACCURACY_MEDIUM, "MediumBot"⟩
  else ⟨BOT_ACCURACY_HARD, "HardBot"⟩

/-- The player argument of the room-creation and join functions. -/
structure JoinPlayer where
  socketId : String
  userId : String
  username : String
  elo : ℚ
  deriving DecidableEq, Repr

/-- The room manager's module-level state. -/
structure RoomsState where
  activeRooms : ℕ → Option GameRoom
  roomCodeMap : String → Option ℕ
  nextId : ℕ

/-- `generateRoomCode`: keep drawing candidates until one is free of the
live-code map. -/
def generateRoomCode (supply : List String) (codeMap : String → Option ℕ) :
    Option String :=
  supply.find? (fun c => (codeMap c).isNone)

/-- Common tail of the three room constructors: draw a fresh code and a
fresh id, build the room, and register it in both maps. -/
def createCore (s : RoomsState) (supply : List String)
    (mkRoom : ℕ → String → GameRoom) : RoomsState :=
  match generateRoomCode supply s.roomCodeMap with
  | none => s
  | some roomCode =>
    let roomId := s.nextId
    let room := mkRoom roomId roomCode
    { activeRooms := fun r => if r = roomId then some room else s.activeRooms r
      roomCodeMap := fun c => if c = roomCode then some roomId else s.roomCodeMap c
      nextId := roomId + 1 }

/-- `createRoom(gameType, player, mode)` — player2 empty. -/
def createRoom (s : RoomsState) (supply : List String) (gameType : String)
    (player : JoinPlayer) (mode : RoomMode) : RoomsState :=
  createCore s supply (fun roomId roomCode =>
    { roomId := roomId, roomCode := roomCode, gameType := gameType
      player1 := ⟨player.socketId, player.userId, player.username, player.elo, 0⟩
      player2 := none, isActive := false, startedAt := none, mode := mode })

/-- `createBotRoom(gameType, player)` — player2 synthesized immediately
from the player's rating tier. -/
def createBotRoom (s : RoomsState) (supply : List String) (gameType : String)
    (player : JoinPlayer) : RoomsState :=
  createCore s supply (fun roomId roomCode =>
    { roomId := roomId, roomCode := roomCode, gameType := gameType
      player1 := ⟨player.socketId, player.userId, player.username, player.elo, 0⟩
      player2 := some ⟨"bot_" ++ toString roomId, "bot_" ++ toString roomId,
        (getBotConfig player.elo).name, player.elo, 0⟩
      isActive := false, startedAt := none, mode := .bot_fallback })

/-- `createRankedRoom(gameType, player1, player2)` — both slots filled. -/
def createRankedRoom (s : RoomsState) (supply : List String) (gameType : String)
    (p1 p2 : JoinPlayer) : RoomsState :=
  createCore s supply (fun roomId roomCode =>
    { roomId := roomId, roomCode := roomCode, gameType := gameType
      player1 := ⟨p1.socketId, p1.userId, p1.username, p1.elo, 0⟩
      player2 := some ⟨p2.socketId, p2.userId, p2.username, p2.elo, 0⟩
      isActive := false, startedAt := none, mode := .ranked })

/-- `joinRoom(roomCode, player)`: a state error (unknown code, missing
room, second slot filled, already active, or bot room) leaves the state
unchanged (the source returns null); otherwise fill `player2`. -/
def joinRoom (s : RoomsState) (roomCode : String) (player : JoinPlayer) :
    RoomsState :=
  match s.roomCodeMap roomCode.toUpper with
  | none => s
  | some roomId =>
    match s.activeRooms roomId with
    | none => s
    | some room =>
      if room.player2.isSome ∨ room.isActive then s
      else if room.mode = .bot_fallback then s
      else
        let filled : GameRoom :=
          { room with
            player2 := some ⟨player.socketId, player.userId, player.username,
              player.elo, 0⟩ }
        { s with activeRooms := fun r =>
            if r = roomId then some filled else s.activeRooms r }

/-- `deleteRoom(roomId)`: free the join code, then drop the room. -/
def deleteRoom (s : RoomsState) (roomId : ℕ) : RoomsState :=
  match s.activeRooms roomId with
  | none => s
  | some room =>
    { s with
      roomCodeMap := fun c => if c = room.roomCode then none else s.roomCodeMap c
      activeRooms := fun r => if r = roomId then none else s.activeRooms r }

/-- The room operations of C8. -/
inductive RoomOp
  | create (supply : List String) (gameType : String) (player : JoinPlayer)
      (mode : RoomMode)
  | createBot (supply : List String) (gameType : String) (player : JoinPlayer)
  | createRanked (supply : List String) (gameType : String) (p1 p2 : JoinPlayer)
  | join (roomCode : String) (player : JoinPlayer)
  | delete (roomId : ℕ)

/-- Apply one room operation. -/
def applyOp (s : RoomsState) : RoomOp → RoomsState
  | .create supply gameType player mode => createRoom s supply gameType player mode
  | .createBot supply gameType player => createBotRoom s supply gameType player
  | .createRanked supply gameType p1 p2 => createRankedRoom s supply gameType p1 p2
  | .join roomCode player => joinRoom s roomCode player
  | .delete roomId => deleteRoom s roomId

/-- The state at module load: both maps empty. -/
def initialRoomsState : RoomsState := ⟨fun _ => none, fun _ => none, 0⟩

/-- States reachable by some sequence of room operations. -/
def ReachableRooms (s : RoomsState) : Prop :=
  ∃ ops : List RoomOp, s = ops.foldl applyOp initialRoomsState

/-- The room/code well-formedness invariant: every live room's id is below
the fresh counter, its stored id matches its key, and its join code maps
back to it; every live code binding points at a live room carrying that
code. -/
def RoomsWF (s : RoomsState) : Prop :=
  (∀ rid room, s.activeRooms rid = some room →
    rid < s.nextId ∧ room.roomId = rid ∧ s.roomCodeMap room.roomCode = some rid) ∧
  (∀ c rid, s.roomCodeMap c = some rid →
    ∃ room, s.activeRooms rid = some room ∧ room.roomCode = c)


/-! ## Room-code invariant proofs (C8) -/

theorem roomsWF_init : RoomsWF initialRoomsState := by
  constructor
  · intro rid room h
    simp [initialRoomsState] at h
  · intro c rid h
    simp [initialRoomsState] at h

theorem createCore_WF (s : RoomsState) (supply : List String)
    (mkRoom : ℕ → String → GameRoom)
    (hmk : ∀ rid code, (mkRoom rid code).roomId = rid ∧ (mkRoom rid code).roomCode = code)
    (hwf : RoomsWF s) : RoomsWF (createCore s supply mkRoom) := by
  obtain ⟨h1, h2⟩ := hwf
  unfold createCore
  rcases hg : generateRoomCode supply s.roomCodeMap with _ | code
  · exact ⟨h1, h2⟩
  · dsimp only
    have hfresh : s.roomCodeMap code = none := by
      have hfind := List.find?_some hg
      simpa [Option.isNone_iff_eq_none] using hfind
    constructor
    · intro rid room h
      dsimp only at h ⊢
      by_cases hr : rid = s.nextId
      · subst hr
        rw [if_pos rfl] at h
        injection h with h
        subst h
        obtain ⟨hid, hcode⟩ := hmk s.nextId code
        refine ⟨by omega, hid, ?_⟩
        rw [hcode, if_pos rfl]
      · rw [if_neg hr] at h
        obtain ⟨hlt, hid, hcm⟩ := h1 rid room h
        refine ⟨by omega, hid, ?_⟩
        have hne : room.roomCode ≠ code := by
          intro hcc
          rw [hcc, hfresh] at hcm
          exact Option.noConfusion hcm
        rw [if_neg hne]
        exact hcm
    · intro c rid h
      dsimp only at h ⊢
      by_cases hcc : c = code
      · subst hcc
        rw [if_pos rfl] at h
        injection h with h
        subst h
        refine ⟨mkRoom s.nextId c, ?_, (hmk s.nextId c).2⟩
        rw [if_pos rfl]
      · rw [if_neg hcc] at h
        obtain ⟨room, hroom, hcode⟩ := h2 c rid h
        refine ⟨room, ?_, hcode⟩
        have hne : rid ≠ s.nextId := by
          intro hr
          obtain ⟨hlt, -, -⟩ := h1 rid room hroom
          omega
        rw [if_neg hne]
        exact hroom

theorem joinRoom_WF (s : RoomsState) (code : String) (player : JoinPlayer)
    (hwf : RoomsWF s) : RoomsWF (joinRoom s code player) := by
  obtain ⟨h1, h2⟩ := hwf
  unfold joinRoom
  rcases hcm : s.roomCodeMap code.toUpper with _ | rid0
  · exact ⟨h1, h2⟩
  dsimp only
  rcases hr0 : s.activeRooms rid0 with _ | room0
  · exact ⟨h1, h2⟩
  try dsimp only
  by_cases hcond : room0.player2.isSome ∨ room0.isActive
  · rw [if_pos hcond]
    exact ⟨h1, h2⟩
  rw [if_neg hcond]
  by_cases hbot : room0.mode = RoomMode.bot_fallback
  · rw [if_pos hbot]
    exact ⟨h1, h2⟩
  rw [if_neg hbot]
  try dsimp only
  obtain ⟨hlt0, hid0, hcm0⟩ := h1 rid0 room0 hr0
  constructor
  · intro rid room h
    dsimp only at h ⊢
    by_cases hrr : rid = rid0
    · subst hrr
      rw [if_pos rfl] at h
      injection h with h
      subst h
      exact ⟨hlt0, hid0, hcm0⟩
    · rw [if_neg hrr] at h
      exact h1 rid room h
  · intro c rid h
    dsimp only at h ⊢
    obtain ⟨room, hroom, hcode⟩ := h2 c rid h
    by_cases hrr : rid = rid0
    · subst hrr
      rw [hr0] at hroom
      injection hroom with hroom
      subst hroom
      refine ⟨{ room0 with player2 := some ⟨player.socketId, player.userId,
        player.username, player.elo, 0⟩ }, ?_, hcode⟩
      rw [if_pos rfl]
    · refine ⟨room, ?_, hcode⟩
      rw [if_neg hrr]
      exact hroom

theorem deleteRoom_WF (s : RoomsState) (roomId : ℕ)
    (hwf : RoomsWF s) : RoomsWF (deleteRoom s roomId) := by
  obtain ⟨h1, h2⟩ := hwf
  unfold deleteRoom
  rcases hr0 : s.activeRooms roomId with _ | room0
  · exact ⟨h1, h2⟩
  dsimp only
  obtain ⟨hlt0, hid0, hcm0⟩ := h1 roomId room0 hr0
  constructor
  · intro rid room h
    dsimp only at h ⊢
    by_cases hrr : rid = roomId
    · rw [if_pos hrr] at h
      exact Option.noConfusion h
    · rw [if_neg hrr] at h
      obtain ⟨hlt, hid, hcm⟩ := h1 rid room h
      refine ⟨hlt, hid, ?_⟩
      have hne : room.roomCode ≠ room0.roomCode := by
        intro hcc
        rw [hcc, hcm0] at hcm
        injection hcm with hcm
        exact hrr hcm.symm
      rw [if_neg hne]
      exact hcm
  · intro c rid h
    dsimp only at h ⊢
    by_cases hcc : c = room0.roomCode
    · rw [if_pos hcc] at h
      exact Option.noConfusion h
    · rw [if_neg hcc] at h
      obtain ⟨room, hroom, hcode⟩ := h2 c rid h
      refine ⟨room, ?_, hcode⟩
      have hne : rid ≠ roomId := by
        intro hrr
        subst hrr
        rw [hr0] at hroom
        injection hroom with hroom
        subst hroom
        exact hcc hcode.symm
      rw [if_neg hne]
      exact hroom

theorem applyOp_WF (s : RoomsState) (op : RoomOp)
    (hwf : RoomsWF s) : RoomsWF (applyOp s op) := by
  cases op with
  | create supply gameType player mode =>
    exact createCore_WF s supply _ (fun rid code => ⟨rfl, rfl⟩) hwf
  | createBot supply gameType player =>
    exact createCore_WF s supply _ (fun rid code => ⟨rfl, rfl⟩) hwf
  | createRanked supply gameType p1 p2 =>
    exact createCore_WF s supply _ (fun rid code => ⟨rfl, rfl⟩) hwf
  | join roomCode player => exact joinRoom_WF s roomCode player hwf
  | delete roomId => exact deleteRoom_WF s roomId hwf

theorem roomsWF_foldl : ∀ (ops : List RoomOp) (s : RoomsState),
    RoomsWF s → RoomsWF (ops.foldl applyOp s) := by
  intro ops
  induction ops with
  | nil => intro s h; exact h
  | cons op rest ih =>
    intro s h
    exact ih (applyOp s op) (applyOp_WF s op h)

theorem applyOp_code_persists (s : RoomsState) (op : RoomOp) (c : String) (rid : ℕ)
    (hwf : RoomsWF s) (h : s.roomCodeMap c = some rid) :
    (applyOp s op).roomCodeMap c = some rid ∨ op = RoomOp.delete rid := by
  obtain ⟨h1, h2⟩ := hwf
  have hcreate : ∀ supply mkRoom,
      (createCore s supply mkRoom).roomCodeMap c = some rid := by
    intro supply mkRoom
    unfold createCore
    rcases hg : generateRoomCode supply s.roomCodeMap with _ | code
    · exact h
    · dsimp only
      have hfresh : s.roomCodeMap code = none := by
        have hfind := List.find?_some hg
        simpa [Option.isNone_iff_eq_none] using hfind
      have hne : c ≠ code := by
        intro hcc
        rw [hcc, hfresh] at h
        exact Option.noConfusion h
      rw [if_neg hne]
      exact h
  cases op with
  | create supply gameType player mode => exact Or.inl (hcreate supply _)
  | createBot supply gameType player => exact Or.inl (hcreate supply _)
  | createRanked supply gameType p1 p2 => exact Or.inl (hcreate supply _)
  | join roomCode player =>
    left
    show (joinRoom s roomCode player).roomCodeMap c = some rid
    unfold joinRoom
    rcases hcm : s.roomCodeMap roomCode.toUpper with _ | rid0
    · exact h
    dsimp only
    rcases hr0 : s.activeRooms rid0 with _ | room0
    · exact h
    try dsimp only
    by_cases hcond : room0.player2.isSome ∨ room0.isActive
    · rw [if_pos hcond]; exact h
    rw [if_neg hcond]
    by_cases hbot : room0.mode = RoomMode.bot_fallback
    · rw [if_pos hbot]; exact h
    rw [if_neg hbot]
    exact h
  | delete roomId =>
    rcases hr0 : s.activeRooms roomId with _ | room0
    · left
      show (deleteRoom s roomId).roomCodeMap c = some rid
      unfold deleteRoom
      rw [hr0]
      exact h
    · by_cases hcc : c = room0.roomCode
      · right
        obtain ⟨-, -, hcm0⟩ := h1 roomId room0 hr0
        rw [hcc, hcm0] at h
        injection h with h
        rw [h]
      · left
        show (deleteRoom s roomId).roomCodeMap c = some rid
        unfold deleteRoom
        rw [hr0]
        dsimp only
        rw [if_neg hcc]
        exact h

/-- C8: in every state reachable by any sequence of room operations, every
live room's join code is registered to it, no two live rooms carry the same
join code, and a live code binding survives every operation except the
deletion of the room owning it — so a code can be reused only after its
room is deleted. -/
theorem C8_live_join_codes_unique (s : RoomsState) (h : ReachableRooms s) :
    (∀ rid room, s.activeRooms rid = some room →
      s.roomCodeMap room.roomCode = some rid) ∧
    (∀ rid1 rid2 room1 room2, s.activeRooms rid1 = some room1 →
      s.activeRooms rid2 = some room2 → room1.roomCode = room2.roomCode →
      rid1 = rid2 ∧ room1 = room2) ∧
    (∀ op c rid, s.roomCodeMap c = some rid →
      (applyOp s op).roomCodeMap c = some rid ∨ op = RoomOp.delete rid) := by
  obtain ⟨ops, rfl⟩ := h
  have hwf := roomsWF_foldl ops initialRoomsState roomsWF_init
  obtain ⟨h1, h2⟩ := hwf
  refine ⟨fun rid room hr => (h1 rid room hr).2.2, ?_, ?_⟩
  · intro rid1 rid2 room1 room2 hr1 hr2 hcode
    have hc1 := (h1 rid1 room1 hr1).2.2
    have hc2 := (h1 rid2 room2 hr2).2.2
    rw [hcode] at hc1
    rw [hc1] at hc2
    injection hc2 with he
    subst he
    rw [hr1] at hr2
    injection hr2 with hr
    exact ⟨rfl, hr⟩
  · intro op c rid hc
    exact applyOp_code_persists _ op c rid ⟨h1, h2⟩ hc

/-- The state after creating one friend room with code supply ["ABC234"],
used by the C8 witness. -/
def demoRoomsState : RoomsState :=
  applyOp initialRoomsState
    (RoomOp.create ["ABC234"] "race" ⟨"s1", "u1", "A", 1000⟩ RoomMode.friend)

/-- C8 witness: the theorem applied to the reachable one-room state. -/
theorem C8_live_join_codes_unique_witness :
    ReachableRooms demoRoomsState ∧
    ((∀ rid room, demoRoomsState.activeRooms rid = some room →
        demoRoomsState.roomCodeMap room.roomCode = some rid) ∧
      (∀ rid1 rid2 room1 room2, demoRoomsState.activeRooms rid1 = some room1 →
        demoRoomsState.activeRooms rid2 = some room2 →
        room1.roomCode = room2.roomCode → rid1 = rid2 ∧ room1 = room2) ∧
      (∀ op c rid, demoRoomsState.roomCodeMap c = some rid →
        (applyOp demoRoomsState op).roomCodeMap c = some rid ∨
          op = RoomOp.delete rid)) := by
  have hreach : ReachableRooms demoRoomsState :=
    ⟨[RoomOp.create ["ABC234"] "race" ⟨"s1", "u1", "A", 1000⟩ RoomMode.friend], rfl⟩
  exact ⟨hreach, C8_live_join_codes_unique demoRoomsState hreach⟩

end LangGames
